import Mathlib

/-!
Verification development for the socialconnect backend's real-time messaging
subsystem.  The definitions below are shallow embeddings of:

* `src/backend/src/utils/validation.ts` (`sanitizeString`),
* `src/backend/src/services/post.service.ts` (`MessageService`:
  `getOrCreateConversation`, `getMessages`, `sendMessage`, `editMessage`,
  `deleteMessage`, `addReaction`, `deleteConversation`, `markAsRead`),
* the Socket.IO handler module (`initializeSocketHandlers`): the in-memory
  `onlineUsers` presence map, the `connection` registration, the
  `message:send` handler and the `disconnect` handler,
* the unused HTTP validator `validateSendMessage`.

The relational store (Prisma) is modelled as an explicit record of tables;
`new Date()` timestamps are passed in as an explicit `now : Nat` parameter.
Each service method becomes a function `... → DB → Except SvcError α × DB`
so that partial writes before a failure would be observable in the final
state.  Row ids (uuids in the source) are modelled by a shared counter.
-/

namespace SocialConnect

/-! ## Whitespace and `sanitizeString` (src/backend/src/utils/validation.ts)

`sanitizeString` in the source is `input.trim().replace(/\s+/g, ' ')`:
trim leading/trailing whitespace, then rewrite every maximal run of
whitespace characters to a single space.  Strings are modelled as
`List Char`; the regex replace is modelled as a single pass that tracks
whether the previous character belonged to a whitespace run. -/

/-- Whitespace class used by JS `trim` and the regex `\s` (core members). -/
def isWhitespace (c : Char) : Bool :=
  c == ' ' || c == '\t' || c == '\n' || c == '\r' || c == '\x0b' || c == '\x0c'

/-- JS `String.prototype.trim`: drop whitespace from both ends. -/
def trimChars (l : List Char) : List Char :=
  ((l.dropWhile isWhitespace).reverse.dropWhile isWhitespace).reverse

/-- One pass of `replace(/\s+/g, ' ')`: the flag records whether the previous
character was part of a whitespace run (in which case further whitespace is
absorbed into the single space already emitted). -/
def collapseGo : Bool → List Char → List Char
  | _, [] => []
  | prevWS, c :: cs =>
    if isWhitespace c then
      if prevWS then collapseGo true cs else ' ' :: collapseGo true cs
    else c :: collapseGo false cs

/-- `replace(/\s+/g, ' ')`: each maximal whitespace run becomes one space. -/
def collapseWhitespace (l : List Char) : List Char :=
  collapseGo false l

/-- `sanitizeString` from src/backend/src/utils/validation.ts. -/
def sanitizeString (l : List Char) : List Char :=
  collapseWhitespace (trimChars l)

/-! Spec-side characterisation ("the input with leading/trailing whitespace
removed and every internal run of whitespace collapsed to a single space"):
split the input into its maximal non-whitespace words and rejoin them with
single spaces.  Used only to be compared against `sanitizeString`. -/

/-- The maximal non-whitespace runs (words) of a list, in order. -/
def wordsOf : List Char → List (List Char)
  | [] => []
  | c :: cs =>
    if isWhitespace c then wordsOf cs
    else (c :: cs.takeWhile (fun x => !isWhitespace x)) ::
      wordsOf (cs.dropWhile (fun x => !isWhitespace x))
termination_by l => l.length
decreasing_by
  all_goals simp only [List.length_cons]
  · omega
  · have h := (@List.dropWhile_sublist Char cs (fun x => !isWhitespace x)).length_le
    omega

/-- Rejoin words with a single space between consecutive words. -/
def joinWords : List (List Char) → List Char
  | [] => []
  | [w] => w
  | w :: w2 :: ws => w ++ ' ' :: joinWords (w2 :: ws)

/-- The spec's wording of the sanitisation, as a function. -/
def specNormalize (l : List Char) : List Char :=
  joinWords (wordsOf l)

/-! ## Error taxonomy (src/backend/src/utils/errors.ts) -/

/-- The typed service errors raised by `MessageService`. -/
inductive SvcError where
  | notFound (msg : String)
  | forbidden (msg : String)
  | validation (msg : String)
deriving DecidableEq

deriving instance DecidableEq for Except

/-- The `error.message` surfaced through the socket acknowledgment. -/
def svcErrorMessage : SvcError → String
  | SvcError.notFound m => m
  | SvcError.forbidden m => m
  | SvcError.validation m => m

/-! ## Data model (the Prisma rows used by `MessageService`) -/

/-- A `Conversation` row: id plus the `updatedAt` activity timestamp. -/
structure Conversation where
  id : Nat
  updatedAt : Nat
deriving DecidableEq

/-- A `ConversationParticipant` row.  The initial `lastReadAt` of a freshly
created participant is modelled as absent (the Prisma schema itself is not
under src/). -/
structure ConversationParticipant where
  id : Nat
  conversationId : Nat
  userId : String
  lastReadAt : Option Nat
deriving DecidableEq

/-- A `Message` row. -/
structure Message where
  id : Nat
  conversationId : Nat
  senderId : String
  content : List Char
  isEdited : Bool
  editedAt : Option Nat
  createdAt : Nat
deriving DecidableEq

/-- A `Reaction` row: the (message, user, emoji) triple. -/
structure Reaction where
  id : Nat
  messageId : Nat
  userId : String
  emoji : String
deriving DecidableEq

/-- The relational store.  `nextId` models id generation: every existing row
id is expected to be `< nextId` (see `IdsFresh`). -/
structure DB where
  conversations : List Conversation
  participants : List ConversationParticipant
  messages : List Message
  reactions : List Reaction
  nextId : Nat
deriving DecidableEq

/-- Freshness of generated ids: all row ids and row-to-row references are
below the generator counter. -/
def IdsFresh (db : DB) : Prop :=
  (∀ c ∈ db.conversations, c.id < db.nextId) ∧
  (∀ p ∈ db.participants, p.id < db.nextId ∧ p.conversationId < db.nextId) ∧
  (∀ m ∈ db.messages, m.id < db.nextId ∧ m.conversationId < db.nextId) ∧
  (∀ r ∈ db.reactions, r.id < db.nextId ∧ r.messageId < db.nextId)

/-! ## MessageService (src/backend/src/services/post.service.ts) -/

/-- `participants: { some: { userId } }` restricted to one conversation:
does the conversation `cid` have a participant row for `uid`? -/
def hasParticipantRow (db : DB) (cid : Nat) (uid : String) : Bool :=
  db.participants.any (fun p => p.conversationId == cid && p.userId == uid)

/-- The `findFirst` over conversations having both users as participants. -/
def findConversationBetween (db : DB) (u1 u2 : String) : Option Conversation :=
  db.conversations.find? (fun c => hasParticipantRow db c.id u1 && hasParticipantRow db c.id u2)

/-- `MessageService.getOrCreateConversation`: rejects self-conversations,
returns an existing conversation for the pair, or creates the conversation
together with its two participant rows. -/
def getOrCreateConversation (now : Nat) (u1 u2 : String) (db : DB) :
    Except SvcError Conversation × DB :=
  if u1 = u2 then
    (Except.error (SvcError.validation "Cannot create conversation with yourself"), db)
  else
    match findConversationBetween db u1 u2 with
    | some c => (Except.ok c, db)
    | none =>
      let conv : Conversation := { id := db.nextId, updatedAt := now }
      let p1 : ConversationParticipant :=
        { id := db.nextId + 1, conversationId := db.nextId, userId := u1, lastReadAt := none }
      let p2 : ConversationParticipant :=
        { id := db.nextId + 2, conversationId := db.nextId, userId := u2, lastReadAt := none }
      (Except.ok conv,
        { db with
            conversations := db.conversations ++ [conv],
            participants := db.participants ++ [p1, p2],
            nextId := db.nextId + 3 })

/-- The messages of one conversation (the `where: { conversationId }`). -/
def conversationMessages (db : DB) (cid : Nat) : List Message :=
  db.messages.filter (fun m => m.conversationId == cid)

/-- Newest-first comparison used by `orderBy: { createdAt: 'desc' }`. -/
def msgGE (a b : Message) : Prop :=
  b.createdAt ≤ a.createdAt

instance : DecidableRel msgGE :=
  fun a b => inferInstanceAs (Decidable (b.createdAt ≤ a.createdAt))

instance : IsTotal Message msgGE :=
  ⟨fun a b => Nat.le_total b.createdAt a.createdAt⟩

instance : IsTrans Message msgGE :=
  ⟨fun _ _ _ hab hbc => Nat.le_trans hbc hab⟩

/-- The newest-first ordering of a conversation's messages (the database
`orderBy createdAt desc`, determinised as a stable sort). -/
def sortNewestFirst (l : List Message) : List Message :=
  List.insertionSort msgGE l

/-- `MessageService.getMessages`: participant check, newest-first pagination
(`skip = (page-1)*limit`, `take = limit`), `lastReadAt` side effect, and the
final `.reverse()` so the page reads oldest-first. -/
def getMessages (now : Nat) (cid : Nat) (uid : String) (page limit : Nat) (db : DB) :
    Except SvcError (List Message) × DB :=
  match db.participants.find? (fun p => p.conversationId == cid && p.userId == uid) with
  | none => (Except.error (SvcError.forbidden "You are not a participant in this conversation"), db)
  | some part =>
    let skip := (page - 1) * limit
    let pageMsgs := ((sortNewestFirst (conversationMessages db cid)).drop skip).take limit
    (Except.ok pageMsgs.reverse,
      { db with
          participants := db.participants.map (fun q =>
            if q.id == part.id then { q with lastReadAt := some now } else q) })

/-- `MessageService.sendMessage`: get-or-create the conversation, persist the
sanitised content, bump the conversation's `updatedAt`.  Note: the realtime
path performs no content validation before this call. -/
def sendMessage (now : Nat) (senderId recipientId : String) (content : List Char) (db : DB) :
    Except SvcError (Message × Nat) × DB :=
  match getOrCreateConversation now senderId recipientId db with
  | (Except.error e, db1) => (Except.error e, db1)
  | (Except.ok conv, db1) =>
    let msg : Message :=
      { id := db1.nextId, conversationId := conv.id, senderId := senderId,
        content := sanitizeString content, isEdited := false, editedAt := none,
        createdAt := now }
    (Except.ok (msg, conv.id),
      { db1 with
          messages := db1.messages ++ [msg],
          nextId := db1.nextId + 1,
          conversations := db1.conversations.map (fun c =>
            if c.id == conv.id then { c with updatedAt := now } else c) })

/-- `MessageService.editMessage`: only the original sender may edit; the
update rewrites content (sanitised) and sets the edited flag and time. -/
def editMessage (now : Nat) (mid : Nat) (uid : String) (content : List Char) (db : DB) :
    Except SvcError Message × DB :=
  match db.messages.find? (fun m => m.id == mid) with
  | none => (Except.error (SvcError.notFound "Message not found"), db)
  | some m =>
    if m.senderId ≠ uid then
      (Except.error (SvcError.forbidden "You can only edit your own messages"), db)
    else
      (Except.ok { m with content := sanitizeString content, isEdited := true, editedAt := some now },
        { db with
            messages := db.messages.map (fun q =>
              if q.id == mid then
                { q with content := sanitizeString content, isEdited := true, editedAt := some now }
              else q) })

/-- `MessageService.deleteMessage`: any participant may hard-delete; the
delete cascades to the message's reactions.  (Modelled from the spec: the
Prisma schema holding the cascade configuration is not under src/; the code
comment states the delete "cascades to reactions".) -/
def deleteMessage (mid : Nat) (uid : String) (db : DB) :
    Except SvcError Nat × DB :=
  match db.messages.find? (fun m => m.id == mid) with
  | none => (Except.error (SvcError.notFound "Message not found"), db)
  | some m =>
    if hasParticipantRow db m.conversationId uid then
      (Except.ok m.conversationId,
        { db with
            messages := db.messages.filter (fun q => !(q.id == mid)),
            reactions := db.reactions.filter (fun r => !(r.messageId == mid)) })
    else
      (Except.error (SvcError.forbidden "You cannot delete this message"), db)

/-- Result tag of `MessageService.addReaction`. -/
inductive ReactionAction where
  | added
  | removed
deriving DecidableEq

/-- `MessageService.addReaction`: toggle of the unique (message, user, emoji)
triple — delete it when present, create it otherwise. -/
def addReaction (mid : Nat) (uid : String) (emoji : String) (db : DB) :
    Except SvcError (ReactionAction × Reaction) × DB :=
  match db.messages.find? (fun m => m.id == mid) with
  | none => (Except.error (SvcError.notFound "Message not found"), db)
  | some m =>
    if hasParticipantRow db m.conversationId uid then
      match db.reactions.find? (fun r => r.messageId == mid && r.userId == uid && r.emoji == emoji) with
      | some r =>
        (Except.ok (ReactionAction.removed, r),
          { db with reactions := db.reactions.filter (fun q => !(q.id == r.id)) })
      | none =>
        let r : Reaction := { id := db.nextId, messageId := mid, userId := uid, emoji := emoji }
        (Except.ok (ReactionAction.added, r),
          { db with reactions := db.reactions ++ [r], nextId := db.nextId + 1 })
    else
      (Except.error (SvcError.forbidden "You are not a participant in this conversation"), db)

/-- `MessageService.deleteConversation`: participant check, then one delete of
the conversation row.  (Modelled from the spec: the Prisma schema holding the
cascade configuration is not under src/; per the spec and the code comment the
delete cascades to messages, reactions and participants in one transaction.)
Returns the participant user ids for socket notification. -/
def deleteConversation (cid : Nat) (uid : String) (db : DB) :
    Except SvcError (List String) × DB :=
  match db.conversations.find? (fun c => c.id == cid) with
  | none => (Except.error (SvcError.notFound "Conversation not found"), db)
  | some _ =>
    let convParts := db.participants.filter (fun p => p.conversationId == cid)
    if convParts.any (fun p => p.userId == uid) then
      (Except.ok (convParts.map (fun p => p.userId)),
        { db with
            conversations := db.conversations.filter (fun c => !(c.id == cid)),
            participants := db.participants.filter (fun p => !(p.conversationId == cid)),
            messages := db.messages.filter (fun m => !(m.conversationId == cid)),
            reactions := db.reactions.filter (fun r =>
              !(db.messages.any (fun m => m.conversationId == cid && m.id == r.messageId))) })
    else
      (Except.error (SvcError.forbidden "You are not a participant in this conversation"), db)

/-- `MessageService.markAsRead`: participant check, then set `lastReadAt`. -/
def markAsRead (now : Nat) (cid : Nat) (uid : String) (db : DB) :
    Except SvcError Unit × DB :=
  match db.participants.find? (fun p => p.conversationId == cid && p.userId == uid) with
  | none => (Except.error (SvcError.forbidden "You are not a participant in this conversation"), db)
  | some part =>
    (Except.ok (),
      { db with
          participants := db.participants.map (fun q =>
            if q.id == part.id then { q with lastReadAt := some now } else q) })

/-! ## Presence registry and socket handlers (socket handler module) -/

/-- The process-wide `onlineUsers` map (`userId -> socketId`), modelled as an
association list with at most one entry per user. -/
def Registry : Type :=
  List (String × String)

/-- `onlineUsers.set(userId, socket.id)` run on `connection`: any prior entry
for the user is superseded. -/
def connectHandler (m : Registry) (userId socketId : String) : Registry :=
  m.filter (fun e => !(e.fst == userId)) ++ [(userId, socketId)]

/-- `onlineUsers.get(userId)`. -/
def registryResolve (m : Registry) (userId : String) : Option String :=
  (m.find? (fun e => e.fst == userId)).map (fun e => e.snd)

/-- The `disconnect` handler: `onlineUsers.delete(userId)`.  The handler's
closure captures only `userId`; the disconnecting socket's id (passed here as
`socketId`) is never consulted. -/
def disconnectHandler (m : Registry) (userId : String) (_socketId : String) : Registry :=
  m.filter (fun e => !(e.fst == userId))

/-- The acknowledgment payload resolved by a socket handler's callback. -/
inductive Ack where
  | ok (m : Message)
  | failed (err : String)
deriving DecidableEq

/-- Outbound events emitted by the `message:send` handler. -/
inductive OutEvent where
  | messageNew (conversationId : Nat) (m : Message)
  | conversationUpdate (socketId : String) (conversationId : Nat) (m : Message)
deriving DecidableEq

/-- The `message:send` socket handler: calls `MessageService.sendMessage`
directly (no validation layer), emits `message:new` to the conversation room,
emits `conversation:update` to the recipient's socket when the recipient is
in the presence map, and resolves the acknowledgment. -/
def messageSendHandler (now : Nat) (onlineUsers : Registry) (userId recipientId : String)
    (content : List Char) (db : DB) : Ack × List OutEvent × DB :=
  match sendMessage now userId recipientId content db with
  | (Except.ok (m, cid), db1) =>
    let direct :=
      match registryResolve onlineUsers recipientId with
      | some sid => [OutEvent.conversationUpdate sid cid m]
      | none => []
    (Ack.ok m, OutEvent.messageNew cid m :: direct, db1)
  | (Except.error e, db1) => (Ack.failed (svcErrorMessage e), [], db1)

/-- `validateRequired` from src/backend/src/utils/validation.ts: collect the
fields (in insertion order) whose value is falsy (for a string: empty) or a
whitespace-only string, and reject naming exactly those fields. -/
def validateRequired (fields : List (String × List Char)) : Except SvcError Unit :=
  let missing := (fields.filter (fun f =>
    f.snd.isEmpty || (trimChars f.snd).isEmpty)).map (fun f => f.fst)
  if missing.isEmpty then
    Except.ok ()
  else
    Except.error (SvcError.validation
      ("Missing required fields: " ++ String.intercalate ", " missing))

/-- The HTTP-side `validateSendMessage` middleware (message validator module):
`validateRequired({ content, recipientId })`, then the explicit empty-content
and 10000-character checks.  This middleware is wired to no route; in
particular the realtime `message:send` path never runs it. -/
def validateSendMessage (content : List Char) (recipientId : List Char) : Except SvcError Unit :=
  match validateRequired [("content", content), ("recipientId", recipientId)] with
  | Except.error e => Except.error e
  | Except.ok _ =>
    if (trimChars content).length = 0 then
      Except.error (SvcError.validation "Message content cannot be empty")
    else if content.length > 10000 then
      Except.error (SvcError.validation "Message content cannot exceed 10000 characters")
    else
      Except.ok ()

/-- Does a message-list query result satisfy "returns empty or NotFoundError"? -/
def resultIsEmptyOrNotFound : Except SvcError (List Message) → Bool
  | Except.ok l => l.isEmpty
  | Except.error (SvcError.notFound _) => true
  | Except.error _ => false

/-- Watermark comparison: an absent `lastReadAt` is below everything. -/
def watermarkLE (a b : Option Nat) : Prop :=
  match a, b with
  | none, _ => True
  | some _, none => False
  | some t, some u => t ≤ u

instance (a b : Option Nat) : Decidable (watermarkLE a b) :=
  match a, b with
  | none, _ => Decidable.isTrue trivial
  | some _, none => Decidable.isFalse (fun h => h)
  | some t, some u => inferInstanceAs (Decidable (t ≤ u))

/-- The wall clock is ahead of every stored read watermark. -/
def ReadClockWF (db : DB) (now : Nat) : Prop :=
  ∀ p ∈ db.participants, watermarkLE p.lastReadAt (some now)

/-- Row-wise comparison of participant tables: identities are preserved and
no read watermark decreases. -/
def ParticipantsMono (before after : List ConversationParticipant) : Prop :=
  List.Forall₂ (fun p q =>
    q.id = p.id ∧ q.conversationId = p.conversationId ∧ q.userId = p.userId ∧
    watermarkLE p.lastReadAt q.lastReadAt) before after

/-- Did the handler acknowledge with `{success: true}`? -/
def ackSuccess : Ack → Bool
  | Ack.ok _ => true
  | Ack.failed _ => false

/-- The last character, if any, is not whitespace. -/
def endsNotWS (l : List Char) : Prop :=
  ∀ c, l.getLast? = some c → isWhitespace c = false

/-- Does the list start with a whitespace character? -/
def headIsWS : List Char → Bool
  | [] => false
  | c :: _ => isWhitespace c

/-! ## Concrete fixtures used to evaluate the theorems -/

/-- A fresh, empty store. -/
def emptyDB : DB :=
  { conversations := [], participants := [], messages := [], reactions := [], nextId := 0 }

/-- One conversation between users `"a"` and `"b"` with three messages. -/
def dbA : DB :=
  { conversations := [⟨0, 0⟩],
    participants := [⟨1, 0, "a", none⟩, ⟨2, 0, "b", some 1⟩],
    messages :=
      [⟨3, 0, "a", ['h', 'i'], false, none, 1⟩,
       ⟨4, 0, "b", ['y', 'o'], false, none, 2⟩,
       ⟨5, 0, "a", ['o', 'k'], false, none, 3⟩],
    reactions := [],
    nextId := 6 }

/-! ## General helper lemmas -/

/-- `find?` only depends on the pointwise values of its predicate. -/
theorem find?_ext {α : Type} {p q : α → Bool} :
    ∀ l : List α, (∀ x ∈ l, p x = q x) → l.find? p = l.find? q := by
  intro l h
  induction l with
  | nil => rfl
  | cons a t ih =>
    have ha := h a (List.mem_cons_self a t)
    simp only [List.find?_cons, ha]
    cases q a with
    | true => rfl
    | false => exact ih (fun x hx => h x (List.mem_cons_of_mem a hx))

/-- `watermarkLE` is reflexive. -/
theorem watermarkLE_refl (a : Option Nat) : watermarkLE a a := by
  cases a with
  | none => trivial
  | some t => exact Nat.le_refl t

/-! ## C9 -/

/-- C9: for every user id `u`, `findOrCreateConversation(u, u)` fails with
`ValidationError` and leaves the store untouched, so no self-conversation is
ever created by it. -/
theorem getOrCreateConversation_self_validation_error (now : Nat) (u : String) (db : DB) :
    getOrCreateConversation now u u db =
      (Except.error (SvcError.validation "Cannot create conversation with yourself"), db) := by
  simp [getOrCreateConversation]

/-! ## C7 -/

/-- C7: editing an existing message as anyone other than its original sender
fails with `ForbiddenError` and returns the store exactly as it was, leaving
the message (and every other row) unchanged. -/
theorem editMessage_non_sender_forbidden (now mid : Nat) (uid : String) (content : List Char)
    (db : DB) (m : Message)
    (hfind : db.messages.find? (fun q => q.id == mid) = some m)
    (hsender : m.senderId ≠ uid) :
    editMessage now mid uid content db =
      (Except.error (SvcError.forbidden "You can only edit your own messages"), db) := by
  simp only [editMessage, hfind]
  rw [if_pos hsender]

/-- Witness for C7: in `dbA`, user `"b"` cannot edit message 3 (sent by
`"a"`); the call fails and the store is unchanged. -/
theorem editMessage_non_sender_forbidden_witness :
    editMessage 9 3 "b" ['x'] dbA =
      (Except.error (SvcError.forbidden "You can only edit your own messages"), dbA) :=
  editMessage_non_sender_forbidden 9 3 "b" ['x'] dbA ⟨3, 0, "a", ['h', 'i'], false, none, 1⟩
    (by decide) (by decide)

/-! ## C1 -/

/-- C1 counterexample: user `"u"` connects with socket `"s1"`, then is
superseded by socket `"s2"` (the registry maps `"u"` to `"s2"`); when the
stale socket `"s1"` disconnects, the handler nevertheless removes the
registry entry, instead of leaving `"s2"` in place as the claim states. -/
theorem disconnect_stale_socket_evicts_newer_session :
    registryResolve (connectHandler (connectHandler [] "u" "s1") "u" "s2") "u" = some "s2" ∧
    registryResolve
      (disconnectHandler (connectHandler (connectHandler [] "u" "s1") "u" "s2") "u" "s1")
      "u" = none := by
  decide

/-- C1 amended: the disconnect handler removes the user's presence entry
unconditionally — it never compares the registered socket handle with the
disconnecting connection — and leaves every other user's entry intact. -/
theorem disconnect_removes_entry_unconditionally (m : Registry) (uid sid v : String) :
    registryResolve (disconnectHandler m uid sid) v =
      if v = uid then none else registryResolve m v := by
  cases Decidable.em (v = uid) with
  | inl h =>
    subst h
    rw [if_pos rfl]
    have h2 : (m.filter (fun e => !(e.fst == v))).find? (fun e => e.fst == v) = none := by
      rw [List.find?_eq_none]
      intro e he
      have := List.of_mem_filter he
      simpa using this
    simp [registryResolve, disconnectHandler, h2]
  | inr h =>
    rw [if_neg h]
    have h2 : ∀ ms : Registry,
        (ms.filter (fun e => !(e.fst == uid))).find? (fun e => e.fst == v) =
          ms.find? (fun e => e.fst == v) := by
      intro ms
      induction ms with
      | nil => rfl
      | cons e t ih2 =>
        rw [List.filter_cons]
        cases he : (e.fst == uid) with
        | true =>
          have heq : e.fst = uid := by simpa using he
          have hev : (e.fst == v) = false := by
            rw [beq_eq_false_iff_ne, heq]
            exact fun hh => h hh.symm
          simp [he, List.find?, hev, ih2]
        | false =>
          cases hev : (e.fst == v) with
          | true => simp [List.find?, hev]
          | false => simp [List.find?, hev, ih2]
    simp only [registryResolve, disconnectHandler]
    rw [h2 m]

/-! ## C2 -/

/-- C2: over the realtime channel, sending a message with empty content does
NOT fail with a `ValidationError`: the handler acknowledges success, persists
a message (with empty sanitised content) into the store, and emits a
`message:new` notification — while the repository's own (unwired)
`validateSendMessage` middleware would have rejected the very same input. -/
theorem message_send_empty_content_not_validated :
    ackSuccess (messageSendHandler 5 [] "a" "b" [] emptyDB).1 = true ∧
    (messageSendHandler 5 [] "a" "b" [] emptyDB).2.2.messages.map (fun m => m.content) = [[]] ∧
    (messageSendHandler 5 [] "a" "b" [] emptyDB).2.1.length = 1 ∧
    validateSendMessage [] ['b'] =
      Except.error (SvcError.validation "Missing required fields: content") := by
  decide

/-! ## C4 -/

/-- C4 counterexample: in `dbA`, user `"a"` deletes conversation 0; querying
messages for that conversation id afterwards returns neither an empty list
nor `NotFoundError` (it fails with `ForbiddenError`, since the caller's
participant row was removed together with the conversation). -/
theorem getMessages_after_delete_not_empty_or_notfound :
    (deleteConversation 0 "a" dbA).1 = Except.ok ["a", "b"] ∧
    resultIsEmptyOrNotFound (getMessages 9 0 "a" 1 50 (deleteConversation 0 "a" dbA).2).1
      = false := by
  decide

/-- C4 (amended): for an existing conversation and an actor who is a
participant, `deleteConversation` succeeds in one atomic step after which no
conversation, participant, message or reaction belonging to the conversation
remains; querying messages for that conversation id afterwards fails with
`ForbiddenError` (not with an empty page or `NotFoundError`). -/
theorem deleteConversation_cascades (cid : Nat) (uid : String) (db : DB) (conv : Conversation)
    (hfind : db.conversations.find? (fun c => c.id == cid) = some conv)
    (hpart : (db.participants.filter (fun p => p.conversationId == cid)).any
      (fun p => p.userId == uid) = true) :
    ∃ pids db2,
      deleteConversation cid uid db = (Except.ok pids, db2) ∧
      (∀ c ∈ db2.conversations, c.id ≠ cid) ∧
      (∀ p ∈ db2.participants, p.conversationId ≠ cid) ∧
      (∀ m ∈ db2.messages, m.conversationId ≠ cid) ∧
      (∀ r ∈ db2.reactions, ∀ m ∈ db.messages, m.conversationId = cid → r.messageId ≠ m.id) ∧
      (∀ now page limit,
        getMessages now cid uid page limit db2 =
          (Except.error (SvcError.forbidden "You are not a participant in this conversation"),
            db2)) := by
  have heq : deleteConversation cid uid db =
      (Except.ok ((db.participants.filter (fun p => p.conversationId == cid)).map
          (fun p => p.userId)),
        { db with
            conversations := db.conversations.filter (fun c => !(c.id == cid)),
            participants := db.participants.filter (fun p => !(p.conversationId == cid)),
            messages := db.messages.filter (fun m => !(m.conversationId == cid)),
            reactions := db.reactions.filter (fun r =>
              !(db.messages.any (fun m => m.conversationId == cid && m.id == r.messageId))) }) := by
    simp only [deleteConversation, hfind]
    rw [if_pos hpart]
  refine ⟨_, _, heq, ?_, ?_, ?_, ?_, ?_⟩
  · intro c hc
    have h2 := (List.mem_filter.mp hc).2
    simpa using h2
  · intro p hp
    have h2 := (List.mem_filter.mp hp).2
    simpa using h2
  · intro m hm
    have h2 := (List.mem_filter.mp hm).2
    simpa using h2
  · intro r hr m hm hmc
    have h2 := (List.mem_filter.mp hr).2
    simp only [Bool.not_eq_eq_eq_not, Bool.not_true, List.any_eq_false] at h2
    have h3 := h2 m hm
    simp only [Bool.and_eq_true, beq_iff_eq, not_and] at h3
    intro hrm
    exact h3 hmc hrm.symm
  · intro now page limit
    have hnone : (db.participants.filter (fun p => !(p.conversationId == cid))).find?
        (fun p => p.conversationId == cid && p.userId == uid) = none := by
      rw [List.find?_eq_none]
      intro p hp
      have h2 := (List.mem_filter.mp hp).2
      simp only [Bool.not_eq_eq_eq_not, Bool.not_true] at h2
      simp [h2]
    simp [getMessages, hnone]

/-- Witness for C4: the amended theorem applied to `dbA` with actor `"a"`
deleting conversation 0. -/
theorem deleteConversation_cascades_witness :
    ∃ pids db2,
      deleteConversation 0 "a" dbA = (Except.ok pids, db2) ∧
      (∀ c ∈ db2.conversations, c.id ≠ 0) ∧
      (∀ p ∈ db2.participants, p.conversationId ≠ 0) ∧
      (∀ m ∈ db2.messages, m.conversationId ≠ 0) ∧
      (∀ r ∈ db2.reactions, ∀ m ∈ dbA.messages, m.conversationId = 0 → r.messageId ≠ m.id) ∧
      (∀ now page limit,
        getMessages now 0 "a" page limit db2 =
          (Except.error (SvcError.forbidden "You are not a participant in this conversation"),
            db2)) :=
  deleteConversation_cascades 0 "a" dbA ⟨0, 0⟩ (by decide) (by decide)

/-! ## C6 -/

/-- C6: for a participant, an existing message and an emoji with no existing
reaction for the triple, reacting twice first adds the reaction (action
`added`) and then removes that same reaction (action `removed`), leaving the
reaction table exactly as it started, with zero reactions for the triple and
no error on either call. -/
theorem addReaction_toggle_roundtrip (mid : Nat) (uid emoji : String) (db : DB) (m : Message)
    (hwf : IdsFresh db)
    (hm : db.messages.find? (fun q => q.id == mid) = some m)
    (hpart : hasParticipantRow db m.conversationId uid = true)
    (hnone : db.reactions.find?
      (fun r => r.messageId == mid && r.userId == uid && r.emoji == emoji) = none) :
    ∃ r1 db1 db2,
      addReaction mid uid emoji db = (Except.ok (ReactionAction.added, r1), db1) ∧
      addReaction mid uid emoji db1 = (Except.ok (ReactionAction.removed, r1), db2) ∧
      db2.reactions = db.reactions ∧
      db2.reactions.filter
        (fun r => r.messageId == mid && r.userId == uid && r.emoji == emoji) = [] := by
  have h1 : addReaction mid uid emoji db =
      (Except.ok (ReactionAction.added, ⟨db.nextId, mid, uid, emoji⟩),
        { db with
            reactions := db.reactions ++ [⟨db.nextId, mid, uid, emoji⟩],
            nextId := db.nextId + 1 }) := by
    simp only [addReaction, hm]
    rw [if_pos hpart]
    simp only [hnone]
  have hfind1 : (db.reactions ++ [(⟨db.nextId, mid, uid, emoji⟩ : Reaction)]).find?
      (fun r => r.messageId == mid && r.userId == uid && r.emoji == emoji) =
        some ⟨db.nextId, mid, uid, emoji⟩ := by
    rw [List.find?_append, hnone]
    simp [List.find?]
  have hback : (db.reactions ++ [(⟨db.nextId, mid, uid, emoji⟩ : Reaction)]).filter
      (fun q => !(q.id == db.nextId)) = db.reactions := by
    rw [List.filter_append]
    have hself : ([(⟨db.nextId, mid, uid, emoji⟩ : Reaction)]).filter
        (fun q => !(q.id == db.nextId)) = [] := by simp
    rw [hself, List.append_nil]
    rw [List.filter_eq_self]
    intro r hr
    have hlt := (hwf.2.2.2 r hr).1
    simp only [Bool.not_eq_eq_eq_not, Bool.not_true, beq_eq_false_iff_ne, ne_eq]
    omega
  have hpart1 : hasParticipantRow
      { db with
          reactions := db.reactions ++ [⟨db.nextId, mid, uid, emoji⟩],
          nextId := db.nextId + 1 } m.conversationId uid = true := by
    simpa [hasParticipantRow] using hpart
  have h2 : addReaction mid uid emoji
      { db with
          reactions := db.reactions ++ [⟨db.nextId, mid, uid, emoji⟩],
          nextId := db.nextId + 1 } =
      (Except.ok (ReactionAction.removed, ⟨db.nextId, mid, uid, emoji⟩),
        { db with reactions := db.reactions, nextId := db.nextId + 1 }) := by
    simp only [addReaction, hm]
    rw [if_pos hpart1]
    simp only [hfind1, hback]
  refine ⟨⟨db.nextId, mid, uid, emoji⟩, _, _, h1, h2, rfl, ?_⟩
  rw [List.filter_eq_nil_iff]
  intro r hr
  have := List.find?_eq_none.mp hnone r hr
  simpa using this

/-- Witness for C6: in `dbA`, user `"a"` toggles a thumbs-up on message 4
twice; the roundtrip adds then removes the reaction and leaves no reactions. -/
theorem addReaction_toggle_roundtrip_witness :
    ∃ r1 db1 db2,
      addReaction 4 "a" "+1" dbA = (Except.ok (ReactionAction.added, r1), db1) ∧
      addReaction 4 "a" "+1" db1 = (Except.ok (ReactionAction.removed, r1), db2) ∧
      db2.reactions = dbA.reactions ∧
      db2.reactions.filter
        (fun r => r.messageId == 4 && r.userId == "a" && r.emoji == "+1") = [] :=
  addReaction_toggle_roundtrip 4 "a" "+1" dbA ⟨4, 0, "b", ['y', 'o'], false, none, 2⟩
    (by unfold IdsFresh; decide) (by decide) (by decide) (by decide)

/-! ## C8 -/

/-- C8: when the wall clock is ahead of every stored watermark, both
operations that write `lastReadAt` (`getMessages` and `markAsRead`) preserve
every participant row's identity, never decrease any `lastReadAt` (they set
the caller's to the current time), and keep the clock ahead of all stored
watermarks. -/
theorem lastReadAt_monotone (db : DB) (now cid : Nat) (uid : String) (page limit : Nat)
    (hclock : ReadClockWF db now) :
    ParticipantsMono db.participants (getMessages now cid uid page limit db).2.participants ∧
    ReadClockWF (getMessages now cid uid page limit db).2 now ∧
    ParticipantsMono db.participants (markAsRead now cid uid db).2.participants ∧
    ReadClockWF (markAsRead now cid uid db).2 now := by
  have hrefl : ParticipantsMono db.participants db.participants := by
    rw [ParticipantsMono, List.forall₂_same]
    exact fun p _ => ⟨rfl, rfl, rfl, watermarkLE_refl p.lastReadAt⟩
  have hmono : ∀ part : ConversationParticipant,
      ParticipantsMono db.participants (db.participants.map (fun q =>
        if q.id == part.id then { q with lastReadAt := some now } else q)) := by
    intro part
    rw [ParticipantsMono, List.forall₂_map_right_iff, List.forall₂_same]
    intro q hq
    by_cases hqi : q.id = part.id
    · have hb : (q.id == part.id) = true := beq_iff_eq.mpr hqi
      rw [if_pos hb]
      exact ⟨rfl, rfl, rfl, hclock q hq⟩
    · have hb : ¬((q.id == part.id) = true) := by simpa using hqi
      rw [if_neg hb]
      exact ⟨rfl, rfl, rfl, watermarkLE_refl q.lastReadAt⟩
  have hwf2 : ∀ part : ConversationParticipant,
      ∀ p2 ∈ db.participants.map (fun q =>
        if q.id == part.id then { q with lastReadAt := some now } else q),
      watermarkLE p2.lastReadAt (some now) := by
    intro part p2 hp2
    obtain ⟨q, hq, rfl⟩ := List.mem_map.mp hp2
    by_cases hqi : q.id = part.id
    · have hb : (q.id == part.id) = true := beq_iff_eq.mpr hqi
      rw [if_pos hb]
      exact Nat.le_refl now
    · have hb : ¬((q.id == part.id) = true) := by simpa using hqi
      rw [if_neg hb]
      exact hclock q hq
  cases hfind : db.participants.find? (fun p => p.conversationId == cid && p.userId == uid) with
  | none =>
    refine ⟨?_, ?_, ?_, ?_⟩ <;> simp only [getMessages, markAsRead, hfind]
    · exact hrefl
    · exact hclock
    · exact hrefl
    · exact hclock
  | some part =>
    refine ⟨?_, ?_, ?_, ?_⟩ <;> simp only [getMessages, markAsRead, hfind]
    · exact hmono part
    · exact hwf2 part
    · exact hmono part
    · exact hwf2 part

/-- Witness for C8: the monotonicity theorem applied to `dbA` at time 7 with
caller `"a"` reading conversation 0. -/
theorem lastReadAt_monotone_witness :
    ParticipantsMono dbA.participants (getMessages 7 0 "a" 1 50 dbA).2.participants ∧
    ReadClockWF (getMessages 7 0 "a" 1 50 dbA).2 7 ∧
    ParticipantsMono dbA.participants (markAsRead 7 0 "a" dbA).2.participants ∧
    ReadClockWF (markAsRead 7 0 "a" dbA).2 7 :=
  lastReadAt_monotone dbA 7 0 "a" 1 50 (by unfold ReadClockWF; decide)

/-! ## C3 -/

/-- C3: for distinct users, calling `findOrCreateConversation` twice — the
second time with the arguments in either order — succeeds both times, leaves
the store after the first call untouched by the second, and returns the same
conversation id both times (the second call finds rather than creates). -/
theorem getOrCreateConversation_idempotent_symmetric
    (now now2 : Nat) (u1 u2 a b : String) (db : DB)
    (hwf : IdsFresh db) (hne : u1 ≠ u2)
    (hab : (a = u1 ∧ b = u2) ∨ (a = u2 ∧ b = u1)) :
    ∃ c1 c2 db1,
      getOrCreateConversation now u1 u2 db = (Except.ok c1, db1) ∧
      getOrCreateConversation now2 a b db1 = (Except.ok c2, db1) ∧
      c2.id = c1.id := by
  have hne2 : a ≠ b := by
    rcases hab with ⟨h1, h2⟩ | ⟨h1, h2⟩
    · rw [h1, h2]; exact hne
    · rw [h1, h2]; exact fun h => hne h.symm
  have hsym : ∀ db2 : DB, findConversationBetween db2 a b = findConversationBetween db2 u1 u2 := by
    intro db2
    unfold findConversationBetween
    apply find?_ext
    intro c hc
    rcases hab with ⟨h1, h2⟩ | ⟨h1, h2⟩
    · rw [h1, h2]
    · rw [h1, h2, Bool.and_comm]
  cases hfc : findConversationBetween db u1 u2 with
  | some c =>
    refine ⟨c, c, db, ?_, ?_, rfl⟩
    · unfold getOrCreateConversation
      rw [if_neg hne, hfc]
    · unfold getOrCreateConversation
      rw [if_neg hne2, hsym db, hfc]
  | none =>
    have hgoc : getOrCreateConversation now u1 u2 db =
        (Except.ok ⟨db.nextId, now⟩,
          { db with
              conversations := db.conversations ++ [⟨db.nextId, now⟩],
              participants := db.participants ++
                [⟨db.nextId + 1, db.nextId, u1, none⟩, ⟨db.nextId + 2, db.nextId, u2, none⟩],
              nextId := db.nextId + 3 }) := by
      unfold getOrCreateConversation
      rw [if_neg hne, hfc]
    have hfind1 : findConversationBetween
        { db with
            conversations := db.conversations ++ [⟨db.nextId, now⟩],
            participants := db.participants ++
              [⟨db.nextId + 1, db.nextId, u1, none⟩, ⟨db.nextId + 2, db.nextId, u2, none⟩],
            nextId := db.nextId + 3 } u1 u2 = some ⟨db.nextId, now⟩ := by
      unfold findConversationBetween at hfc ⊢
      have hOld := List.find?_eq_none.mp hfc
      rw [List.find?_append]
      have hA : db.conversations.find? (fun c =>
          hasParticipantRow
            { db with
                conversations := db.conversations ++ [⟨db.nextId, now⟩],
                participants := db.participants ++
                  [⟨db.nextId + 1, db.nextId, u1, none⟩, ⟨db.nextId + 2, db.nextId, u2, none⟩],
                nextId := db.nextId + 3 } c.id u1 &&
          hasParticipantRow
            { db with
                conversations := db.conversations ++ [⟨db.nextId, now⟩],
                participants := db.participants ++
                  [⟨db.nextId + 1, db.nextId, u1, none⟩, ⟨db.nextId + 2, db.nextId, u2, none⟩],
                nextId := db.nextId + 3 } c.id u2) = none := by
        rw [List.find?_eq_none]
        intro c hc
        have hb : (db.nextId == c.id) = false := by
          have hlt := hwf.1 c hc
          rw [beq_eq_false_iff_ne]
          omega
        have hSame : ∀ u : String,
            hasParticipantRow
              { db with
                  conversations := db.conversations ++ [⟨db.nextId, now⟩],
                  participants := db.participants ++
                    [⟨db.nextId + 1, db.nextId, u1, none⟩, ⟨db.nextId + 2, db.nextId, u2, none⟩],
                  nextId := db.nextId + 3 } c.id u = hasParticipantRow db c.id u := by
          intro u
          unfold hasParticipantRow
          simp [List.any_append, hb]
        rw [hSame u1, hSame u2]
        exact hOld c hc
      rw [hA]
      have hT : ∀ u : String, (u = u1 ∨ u = u2) →
          hasParticipantRow
            { db with
                conversations := db.conversations ++ [⟨db.nextId, now⟩],
                participants := db.participants ++
                  [⟨db.nextId + 1, db.nextId, u1, none⟩, ⟨db.nextId + 2, db.nextId, u2, none⟩],
                nextId := db.nextId + 3 } db.nextId u = true := by
        intro u hu
        unfold hasParticipantRow
        rcases hu with rfl | rfl <;> simp [List.any_append]
      simp [List.find?, hT u1 (Or.inl rfl), hT u2 (Or.inr rfl)]
    refine ⟨⟨db.nextId, now⟩, ⟨db.nextId, now⟩, _, hgoc, ?_, rfl⟩
    unfold getOrCreateConversation
    rw [if_neg hne2, hsym _, hfind1]

/-- Witness for C3: starting from `dbA` (with `IdsFresh` holding), the first
call creates a conversation between `"a"` and `"c"` and the second call with
the arguments swapped finds the same conversation id without changing the
store. -/
theorem getOrCreateConversation_idempotent_symmetric_witness :
    ∃ c1 c2 db1,
      getOrCreateConversation 9 "a" "c" dbA = (Except.ok c1, db1) ∧
      getOrCreateConversation 11 "c" "a" db1 = (Except.ok c2, db1) ∧
      c2.id = c1.id :=
  getOrCreateConversation_idempotent_symmetric 9 11 "a" "c" "c" "a" dbA
    (by unfold IdsFresh; decide) (by decide) (Or.inr ⟨rfl, rfl⟩)

/-! ## C5 -/

/-- C5: a `getMessages` call by a non-participant fails with
`ForbiddenError` without touching the store.  For a participant, the
underlying query paginates newest-first (`skip = (page-1)*limit`, take
`limit` of the `createdAt`-descending ordering) and the page is returned
reversed, hence in chronological oldest-first order; every message of the
returned page is at least as recent as everything the newest-first query
places after the page (so page 1 holds the most recent `limit` messages);
and the caller's `lastReadAt` is set to the current time. -/
theorem getMessages_pagination_spec (now cid : Nat) (uid : String) (page limit : Nat) (db : DB) :
    match db.participants.find? (fun p => p.conversationId == cid && p.userId == uid) with
    | none =>
        getMessages now cid uid page limit db =
          (Except.error (SvcError.forbidden "You are not a participant in this conversation"), db)
    | some part =>
        getMessages now cid uid page limit db =
          (Except.ok ((((sortNewestFirst (conversationMessages db cid)).drop
              ((page - 1) * limit)).take limit).reverse),
            { db with participants := db.participants.map (fun q =>
                if q.id == part.id then { q with lastReadAt := some now } else q) }) ∧
        ((((sortNewestFirst (conversationMessages db cid)).drop ((page - 1) * limit)).take
            limit).reverse).Pairwise (fun m1 m2 => m1.createdAt ≤ m2.createdAt) ∧
        (∀ m1 ∈ (((sortNewestFirst (conversationMessages db cid)).drop
            ((page - 1) * limit)).take limit).reverse,
          ∀ m2 ∈ (sortNewestFirst (conversationMessages db cid)).drop ((page - 1) * limit + limit),
            m2.createdAt ≤ m1.createdAt) ∧
        { part with lastReadAt := some now } ∈
          (getMessages now cid uid page limit db).2.participants := by
  cases hfind : db.participants.find? (fun p => p.conversationId == cid && p.userId == uid) with
  | none =>
    simp only [getMessages, hfind]
  | some part =>
    have heq : getMessages now cid uid page limit db =
        (Except.ok ((((sortNewestFirst (conversationMessages db cid)).drop
            ((page - 1) * limit)).take limit).reverse),
          { db with participants := db.participants.map (fun q =>
              if q.id == part.id then { q with lastReadAt := some now } else q) }) := by
      simp only [getMessages, hfind]
    have hsorted : (sortNewestFirst (conversationMessages db cid)).Pairwise msgGE :=
      List.sorted_insertionSort msgGE (conversationMessages db cid)
    have hpage : ((((sortNewestFirst (conversationMessages db cid)).drop
        ((page - 1) * limit)).take limit)).Pairwise msgGE :=
      hsorted.sublist
        ((((sortNewestFirst (conversationMessages db cid)).drop
            ((page - 1) * limit)).take_sublist limit).trans
          ((sortNewestFirst (conversationMessages db cid)).drop_sublist ((page - 1) * limit)))
    refine ⟨heq, ?_, ?_, ?_⟩
    · rw [List.pairwise_reverse]
      exact hpage
    · intro m1 hm1 m2 hm2
      rw [List.mem_reverse] at hm1
      have hdropped : (sortNewestFirst (conversationMessages db cid)).Pairwise msgGE →
          ((sortNewestFirst (conversationMessages db cid)).drop
            ((page - 1) * limit)).Pairwise msgGE :=
        fun h => h.sublist ((sortNewestFirst (conversationMessages db cid)).drop_sublist _)
      have hsplit := hdropped hsorted
      have hdd : ((sortNewestFirst (conversationMessages db cid)).drop
          ((page - 1) * limit)).drop limit =
            (sortNewestFirst (conversationMessages db cid)).drop ((page - 1) * limit + limit) := by
        rw [List.drop_drop, Nat.add_comm]
      have hdecomp : (sortNewestFirst (conversationMessages db cid)).drop ((page - 1) * limit) =
          (((sortNewestFirst (conversationMessages db cid)).drop
              ((page - 1) * limit)).take limit) ++
            ((sortNewestFirst (conversationMessages db cid)).drop ((page - 1) * limit + limit)) := by
        rw [← hdd]
        exact (List.take_append_drop limit _).symm
      rw [hdecomp] at hsplit
      have hcross := (List.pairwise_append.mp hsplit).2.2
      exact hcross m1 hm1 m2 hm2
    · rw [heq]
      apply List.mem_map.mpr
      refine ⟨part, List.mem_of_find?_eq_some hfind, ?_⟩
      rw [if_pos (beq_self_eq_true part.id)]

/-- Witness for C5: the pagination theorem evaluated on `dbA` for caller
`"a"`, page 1, limit 2. -/
theorem getMessages_pagination_spec_witness :
    match dbA.participants.find? (fun p => p.conversationId == 0 && p.userId == "a") with
    | none =>
        getMessages 7 0 "a" 1 2 dbA =
          (Except.error (SvcError.forbidden "You are not a participant in this conversation"), dbA)
    | some part =>
        getMessages 7 0 "a" 1 2 dbA =
          (Except.ok ((((sortNewestFirst (conversationMessages dbA 0)).drop
              ((1 - 1) * 2)).take 2).reverse),
            { dbA with participants := dbA.participants.map (fun q =>
                if q.id == part.id then { q with lastReadAt := some 7 } else q) }) ∧
        ((((sortNewestFirst (conversationMessages dbA 0)).drop ((1 - 1) * 2)).take
            2).reverse).Pairwise (fun m1 m2 => m1.createdAt ≤ m2.createdAt) ∧
        (∀ m1 ∈ (((sortNewestFirst (conversationMessages dbA 0)).drop
            ((1 - 1) * 2)).take 2).reverse,
          ∀ m2 ∈ (sortNewestFirst (conversationMessages dbA 0)).drop ((1 - 1) * 2 + 2),
            m2.createdAt ≤ m1.createdAt) ∧
        { part with lastReadAt := some 7 } ∈ (getMessages 7 0 "a" 1 2 dbA).2.participants :=
  getMessages_pagination_spec 7 0 "a" 1 2 dbA

/-! ## C10 — helper lemmas relating `sanitizeString` to the spec's wording -/

/-- Dropping a whitespace cons preserves `endsNotWS` downwards. -/
theorem endsNotWS_tail (c : Char) (cs : List Char) (h : endsNotWS (c :: cs)) : endsNotWS cs := by
  cases cs with
  | nil => intro x hx; simp at hx
  | cons d ds =>
    intro x hx
    apply h x
    rw [List.getLast?_cons_cons]
    exact hx

/-- A list ending in a non-whitespace character cannot be a single
whitespace character. -/
theorem cons_ws_ne_nil (c : Char) (cs : List Char)
    (h : endsNotWS (c :: cs)) (hc : isWhitespace c = true) : cs ≠ [] := by
  intro hnil
  subst hnil
  have := h c (by simp)
  rw [this] at hc
  exact Bool.false_ne_true hc

/-- A nonempty list that does not end in whitespace has at least one word. -/
theorem wordsOf_ne_nil : ∀ l : List Char, endsNotWS l → l ≠ [] → wordsOf l ≠ [] := by
  intro l
  induction l with
  | nil => intro _ h; exact absurd rfl h
  | cons c cs ih =>
    intro h _
    by_cases hc : isWhitespace c = true
    · have hcs : cs ≠ [] := cons_ws_ne_nil c cs h hc
      have htail : endsNotWS cs := endsNotWS_tail c cs h
      rw [wordsOf, if_pos hc]
      exact ih htail hcs
    · rw [wordsOf, if_neg hc]
      exact List.cons_ne_nil _ _

/-- Pulling a character out of the first word commutes with joining. -/
theorem joinWords_cons_cons (c : Char) (w : List Char) (ws : List (List Char)) :
    joinWords ((c :: w) :: ws) = c :: joinWords (w :: ws) := by
  cases ws with
  | nil => rfl
  | cons w2 ws2 => simp [joinWords]

/-- Core invariant of the single-pass collapse: on input that does not end in
whitespace, collapsing in mid-run state yields the joined words, while
collapsing in fresh state additionally emits one leading space when the input
starts with whitespace. -/
theorem collapseGo_joinWords : ∀ l : List Char, endsNotWS l →
    collapseGo true l = joinWords (wordsOf l) ∧
    collapseGo false l = (if headIsWS l = true then [' '] else []) ++ joinWords (wordsOf l) := by
  intro l
  induction l with
  | nil => intro _; constructor <;> simp [collapseGo, wordsOf, joinWords, headIsWS]
  | cons c cs ih =>
    intro h
    have htail : endsNotWS cs := endsNotWS_tail c cs h
    by_cases hc : isWhitespace c = true
    · have ihcs := ih htail
      have hwcons : wordsOf (c :: cs) = wordsOf cs := by simp [wordsOf, hc]
      constructor
      · have hl : collapseGo true (c :: cs) = collapseGo true cs := by simp [collapseGo, hc]
        rw [hl, hwcons]
        exact ihcs.1
      · have hl : collapseGo false (c :: cs) = ' ' :: collapseGo true cs := by
          simp [collapseGo, hc]
        have hh : headIsWS (c :: cs) = true := by simp [headIsWS, hc]
        rw [hl, hwcons, ihcs.1, hh]
        rfl
    · have hcb : isWhitespace c = false := by simpa using hc
      have hkey : collapseGo false cs =
          joinWords ((cs.takeWhile (fun x => !isWhitespace x)) ::
            wordsOf (cs.dropWhile (fun x => !isWhitespace x))) := by
        cases cs with
        | nil => simp [collapseGo, wordsOf, joinWords]
        | cons d ds =>
          have ihcs := ih htail
          by_cases hd : isWhitespace d = true
          · have ht : (d :: ds).takeWhile (fun x => !isWhitespace x) = [] := by
              simp [List.takeWhile_cons, hd]
            have hdr : (d :: ds).dropWhile (fun x => !isWhitespace x) = d :: ds := by
              simp [List.dropWhile_cons, hd]
            rw [ht, hdr]
            have hne2 : wordsOf (d :: ds) ≠ [] :=
              wordsOf_ne_nil (d :: ds) htail (List.cons_ne_nil d ds)
            obtain ⟨w2, ws2, hw2⟩ : ∃ w2 ws2, wordsOf (d :: ds) = w2 :: ws2 := by
              cases hx : wordsOf (d :: ds) with
              | nil => exact absurd hx hne2
              | cons a bl => exact ⟨a, bl, rfl⟩
            rw [hw2]
            have hjw : joinWords ([] :: w2 :: ws2) = ' ' :: joinWords (w2 :: ws2) := by
              simp [joinWords]
            rw [hjw, ← hw2, ihcs.2]
            have hh : headIsWS (d :: ds) = true := by simp [headIsWS, hd]
            rw [hh]
            rfl
          · have hdb : isWhitespace d = false := by simpa using hd
            have ht : (d :: ds).takeWhile (fun x => !isWhitespace x) =
                d :: ds.takeWhile (fun x => !isWhitespace x) := by
              simp [List.takeWhile_cons, hdb]
            have hdr : (d :: ds).dropWhile (fun x => !isWhitespace x) =
                ds.dropWhile (fun x => !isWhitespace x) := by
              simp [List.dropWhile_cons, hdb]
            rw [ht, hdr]
            have hw2 : wordsOf (d :: ds) = (d :: ds.takeWhile (fun x => !isWhitespace x)) ::
                wordsOf (ds.dropWhile (fun x => !isWhitespace x)) := by
              simp [wordsOf, hdb]
            rw [← hw2, ihcs.2]
            have hh : headIsWS (d :: ds) = false := by simp [headIsWS, hdb]
            rw [hh]
            rfl
      have hrw : wordsOf (c :: cs) = (c :: cs.takeWhile (fun x => !isWhitespace x)) ::
          wordsOf (cs.dropWhile (fun x => !isWhitespace x)) := by
        simp [wordsOf, hcb]
      constructor
      · have hl : collapseGo true (c :: cs) = c :: collapseGo false cs := by
          simp [collapseGo, hcb]
        rw [hl, hrw, joinWords_cons_cons, hkey]
      · have hl : collapseGo false (c :: cs) = c :: collapseGo false cs := by
          simp [collapseGo, hcb]
        have hh : headIsWS (c :: cs) = false := by simp [headIsWS, hcb]
        rw [hl, hrw, joinWords_cons_cons, hkey, hh]
        rfl

/-- Word splitting ignores leading whitespace. -/
theorem wordsOf_dropWhile : ∀ l : List Char, wordsOf (l.dropWhile isWhitespace) = wordsOf l := by
  intro l
  induction l with
  | nil => rfl
  | cons c cs ih =>
    by_cases hc : isWhitespace c = true
    · have h1 : (c :: cs).dropWhile isWhitespace = cs.dropWhile isWhitespace := by
        simp [List.dropWhile_cons, hc]
      have h2 : wordsOf (c :: cs) = wordsOf cs := by simp [wordsOf, hc]
      rw [h1, h2, ih]
    · have hcb : isWhitespace c = false := by simpa using hc
      have h1 : (c :: cs).dropWhile isWhitespace = c :: cs := by
        simp [List.dropWhile_cons, hcb]
      rw [h1]

/-- An all-whitespace list has no words. -/
theorem wordsOf_all_ws : ∀ w : List Char, (∀ c ∈ w, isWhitespace c = true) → wordsOf w = [] := by
  intro w
  induction w with
  | nil => intro _; simp [wordsOf]
  | cons c cs ih =>
    intro h
    have hc := h c (List.mem_cons_self c cs)
    have h2 : wordsOf (c :: cs) = wordsOf cs := by simp [wordsOf, hc]
    rw [h2]
    exact ih (fun x hx => h x (List.mem_cons_of_mem c hx))

/-- `takeWhile` over an append, phrased through whether the first part is
taken whole. -/
theorem takeWhile_append_split {α : Type} (p : α → Bool) :
    ∀ l1 l2 : List α, (l1 ++ l2).takeWhile p =
      if (l1.dropWhile p).isEmpty then l1 ++ l2.takeWhile p else l1.takeWhile p := by
  intro l1
  induction l1 with
  | nil => intro l2; simp
  | cons a t ih =>
    intro l2
    cases ha : p a with
    | true =>
      simp only [List.cons_append, List.takeWhile_cons, List.dropWhile_cons, ha, if_true]
      rw [ih l2]
      cases he : (t.dropWhile p).isEmpty with
      | true => simp [he]
      | false => simp [he]
    | false =>
      simp [List.takeWhile_cons, List.dropWhile_cons, ha]

/-- Appending trailing whitespace does not change the words. -/
theorem wordsOf_append_ws (w : List Char) (hw : ∀ c ∈ w, isWhitespace c = true) :
    ∀ xs : List Char, wordsOf (xs ++ w) = wordsOf xs := by
  have hwtake : w.takeWhile (fun x => !isWhitespace x) = [] := by
    cases w with
    | nil => rfl
    | cons c cs =>
      have hc := hw c (List.mem_cons_self c cs)
      simp [List.takeWhile_cons, hc]
  have hwdrop : w.dropWhile (fun x => !isWhitespace x) = w := by
    cases w with
    | nil => rfl
    | cons c cs =>
      have hc := hw c (List.mem_cons_self c cs)
      simp [List.dropWhile_cons, hc]
  intro xs
  induction xs using wordsOf.induct with
  | case1 => simpa [wordsOf] using wordsOf_all_ws w hw
  | case2 c cs hc ih =>
    have h1 : wordsOf (c :: cs) = wordsOf cs := by simp [wordsOf, hc]
    have h2 : wordsOf (c :: (cs ++ w)) = wordsOf (cs ++ w) := by simp [wordsOf, hc]
    rw [List.cons_append, h2, ih, h1]
  | case3 c cs hc ih =>
    have hcb : isWhitespace c = false := by simpa using hc
    rw [List.cons_append]
    have hgoal1 : wordsOf (c :: (cs ++ w)) =
        (c :: (cs ++ w).takeWhile (fun x => !isWhitespace x)) ::
          wordsOf ((cs ++ w).dropWhile (fun x => !isWhitespace x)) := by
      simp [wordsOf, hcb]
    have hgoal2 : wordsOf (c :: cs) =
        (c :: cs.takeWhile (fun x => !isWhitespace x)) ::
          wordsOf (cs.dropWhile (fun x => !isWhitespace x)) := by
      simp [wordsOf, hcb]
    rw [hgoal1, hgoal2]
    cases he : (cs.dropWhile (fun x => !isWhitespace x)).isEmpty with
    | true =>
      have hdnil : cs.dropWhile (fun x => !isWhitespace x) = [] := by
        simpa [List.isEmpty_iff] using he
      have htfull : cs.takeWhile (fun x => !isWhitespace x) = cs := by
        have := List.takeWhile_append_dropWhile (fun x => !isWhitespace x) cs
        rw [hdnil, List.append_nil] at this
        exact this
      rw [takeWhile_append_split, List.dropWhile_append, hdnil]
      simp only [List.isEmpty_nil, if_true]
      rw [hwtake, hwdrop, htfull]
      simp [wordsOf_all_ws w hw, wordsOf]
    | false =>
      rw [takeWhile_append_split, List.dropWhile_append]
      simp [he, ih]

/-- `dropWhile` keeps the last element when its result is nonempty. -/
theorem getLast?_dropWhile {α : Type} (p : α → Bool) :
    ∀ l : List α, l.dropWhile p ≠ [] → (l.dropWhile p).getLast? = l.getLast? := by
  intro l
  induction l with
  | nil => intro h; exact absurd rfl h
  | cons a t ih =>
    intro h
    cases ha : p a with
    | true =>
      have hd : (a :: t).dropWhile p = t.dropWhile p := by simp [List.dropWhile_cons, ha]
      rw [hd] at h ⊢
      have ht : t ≠ [] := by
        intro hnil
        rw [hnil] at h
        exact h rfl
      obtain ⟨d, ds, rfl⟩ : ∃ d ds, t = d :: ds := by
        cases t with
        | nil => exact absurd rfl ht
        | cons d ds => exact ⟨d, ds, rfl⟩
      rw [ih h, List.getLast?_cons_cons]
    | false =>
      have hd : (a :: t).dropWhile p = a :: t := by simp [List.dropWhile_cons, ha]
      rw [hd]

/-- The head of a `dropWhile` result fails the predicate. -/
theorem dropWhile_head_not {α : Type} (p : α → Bool) :
    ∀ (l : List α) (c : α) (rest : List α), l.dropWhile p = c :: rest → p c = false := by
  intro l
  induction l with
  | nil => intro c rest h; simp at h
  | cons a t ih =>
    intro c rest h
    cases ha : p a with
    | true =>
      rw [List.dropWhile_cons, if_pos ha] at h
      exact ih c rest h
    | false =>
      rw [List.dropWhile_cons, if_neg (by simp [ha])] at h
      cases h
      exact ha

/-- The sanitisation of the source — trim, then collapse whitespace runs —
computes exactly the spec's normalisation: the whitespace-separated words
rejoined with single spaces. -/
theorem collapseGo_trim_eq_joinWords (l : List Char) :
    collapseGo false (((l.dropWhile isWhitespace).reverse.dropWhile isWhitespace).reverse) =
      joinWords (wordsOf l) := by
  have hEnds : endsNotWS
      (((l.dropWhile isWhitespace).reverse.dropWhile isWhitespace).reverse) := by
    intro c hc
    rw [List.getLast?_reverse] at hc
    cases hu : (l.dropWhile isWhitespace).reverse.dropWhile isWhitespace with
    | nil => rw [hu] at hc; simp at hc
    | cons e es =>
      rw [hu] at hc
      simp only [List.head?_cons, Option.some.injEq] at hc
      subst hc
      exact dropWhile_head_not isWhitespace _ e es hu
  have hwt : wordsOf (((l.dropWhile isWhitespace).reverse.dropWhile isWhitespace).reverse) =
      wordsOf l := by
    have hdecomp : l.dropWhile isWhitespace =
        (((l.dropWhile isWhitespace).reverse.dropWhile isWhitespace).reverse) ++
          ((l.dropWhile isWhitespace).reverse.takeWhile isWhitespace).reverse := by
      conv_lhs => rw [← (l.dropWhile isWhitespace).reverse_reverse]
      conv_lhs =>
        rw [← List.takeWhile_append_dropWhile isWhitespace (l.dropWhile isWhitespace).reverse]
      rw [List.reverse_append]
    have hws : ∀ c ∈ ((l.dropWhile isWhitespace).reverse.takeWhile isWhitespace).reverse,
        isWhitespace c = true := by
      intro c hc
      rw [List.mem_reverse] at hc
      exact List.mem_takeWhile_imp hc
    have h2 := wordsOf_append_ws _ hws
        (((l.dropWhile isWhitespace).reverse.dropWhile isWhitespace).reverse)
    have h3 : wordsOf (l.dropWhile isWhitespace) =
        wordsOf (((l.dropWhile isWhitespace).reverse.dropWhile isWhitespace).reverse) := by
      conv_lhs => rw [hdecomp]
      exact h2
    exact h3.symm.trans (wordsOf_dropWhile l)
  have hHead : headIsWS
      (((l.dropWhile isWhitespace).reverse.dropWhile isWhitespace).reverse) = false := by
    cases ht : ((l.dropWhile isWhitespace).reverse.dropWhile isWhitespace).reverse with
    | nil => rfl
    | cons e rest =>
      have hne : (l.dropWhile isWhitespace).reverse.dropWhile isWhitespace ≠ [] := by
        intro hnil
        rw [hnil] at ht
        simp at ht
      have hu : ((l.dropWhile isWhitespace).reverse.dropWhile isWhitespace).reverse.head? =
          some e := by rw [ht]; rfl
      rw [List.head?_reverse] at hu
      rw [getLast?_dropWhile isWhitespace _ hne, List.getLast?_reverse] at hu
      cases hx : l.dropWhile isWhitespace with
      | nil => rw [hx] at hu; simp at hu
      | cons f fs =>
        rw [hx] at hu
        simp only [List.head?_cons, Option.some.injEq] at hu
        have hf := dropWhile_head_not isWhitespace l f fs hx
        rw [hu] at hf
        simp [headIsWS, hf]
  have hmain := (collapseGo_joinWords _ hEnds).2
  rw [hmain, hHead, hwt]
  rfl

/-- C10: every message stored by `sendMessage` and every rewrite by
`editMessage` stores `sanitizeString` of the caller's input rather than the
verbatim input, and `sanitizeString` is exactly the spec's transformation:
leading/trailing whitespace removed and every internal whitespace run
(newlines and tabs included) collapsed to a single space — i.e. the
whitespace-separated words rejoined with single spaces. -/
theorem message_content_sanitized
    (now now2 : Nat) (s r uid : String) (content1 content2 : List Char) (db : DB) (mid : Nat) :
    (∀ m cid db1, sendMessage now s r content1 db = (Except.ok (m, cid), db1) →
      m.content = sanitizeString content1 ∧ m ∈ db1.messages) ∧
    (∀ m2 db1, editMessage now2 mid uid content2 db = (Except.ok m2, db1) →
      m2.content = sanitizeString content2 ∧
      ∃ q ∈ db1.messages, q.id = mid ∧ q.content = sanitizeString content2) ∧
    (∀ l : List Char, sanitizeString l = specNormalize l) := by
  refine ⟨?_, ?_, ?_⟩
  · intro m cid db1 h
    unfold sendMessage at h
    cases hg : getOrCreateConversation now s r db with
    | mk res db0 =>
      rw [hg] at h
      cases res with
      | error e => simp at h
      | ok conv =>
        simp only [Prod.mk.injEq, Except.ok.injEq] at h
        obtain ⟨⟨hm, hcid⟩, hdb⟩ := h
        constructor
        · rw [← hm]
        · rw [← hm, ← hdb]
          simp
  · intro m2 db1 h
    unfold editMessage at h
    split at h
    · simp at h
    · rename_i m0 hfind
      split at h
      · simp at h
      · simp only [Prod.mk.injEq, Except.ok.injEq] at h
        obtain ⟨hm, hdb⟩ := h
        have hid : (m0.id == mid) = true := by
          have h2 := List.find?_some hfind
          simpa using h2
        constructor
        · rw [← hm]
        · refine ⟨{ m0 with
              content := sanitizeString content2,
              isEdited := true,
              editedAt := some now2 }, ?_, beq_iff_eq.mp hid, rfl⟩
          rw [← hdb]
          apply List.mem_map.mpr
          refine ⟨m0, List.mem_of_find?_eq_some hfind, ?_⟩
          rw [if_pos hid]
  · intro l
    exact collapseGo_trim_eq_joinWords l

/-- Witness for C10: evaluated on `dbA` — sending `" h\ti "` stores and
returns `"h i"`, and editing message 3 with `"y  z"` stores `"y z"`. -/
theorem message_content_sanitized_witness :
    sanitizeString [' ', 'h', '\t', 'i', ' '] = ['h', ' ', 'i'] ∧
    (sendMessage 4 "a" "b" [' ', 'h', '\t', 'i', ' '] dbA).1 =
      Except.ok (⟨6, 0, "a", ['h', ' ', 'i'], false, none, 4⟩, 0) ∧
    ((∀ m cid db1,
        sendMessage 4 "a" "b" [' ', 'h', '\t', 'i', ' '] dbA = (Except.ok (m, cid), db1) →
        m.content = sanitizeString [' ', 'h', '\t', 'i', ' '] ∧ m ∈ db1.messages) ∧
      (∀ m2 db1, editMessage 5 3 "a" ['y', ' ', ' ', 'z'] dbA = (Except.ok m2, db1) →
        m2.content = sanitizeString ['y', ' ', ' ', 'z'] ∧
        ∃ q ∈ db1.messages, q.id = 3 ∧ q.content = sanitizeString ['y', ' ', ' ', 'z']) ∧
      (∀ l : List Char, sanitizeString l = specNormalize l)) :=
  ⟨by decide, by decide,
    message_content_sanitized 4 5 "a" "b" "a" [' ', 'h', '\t', 'i', ' '] ['y', ' ', ' ', 'z']
      dbA 3⟩

end SocialConnect
